import Mathlib

/-!
Verification of the kocka_kanon core against its specification.

The development shallowly embeds the JavaScript source (src/index.js and
the snapshot src/unnamed/part_001) in Lean:

* servo/tracking constants and the proportional controller
  (src/index.js lines 2558-2559, 2626-2637);
* readServoState (src/index.js lines 1606-1619);
* the MJPEG frame extraction loop of broadcastFrame
  (src/index.js lines 2231-2258);
* the actuator-link request/response machinery around servoCmd and
  startServoDaemon (src/index.js lines 1754-1814);
* the motion-tracking move/persist state machine (src/index.js
  lines 2561-2667) and the fire/cooldown state machine
  (src/unnamed/part_001 lines 784-933);
* the camera stream lifecycle around uiStreamClients and the idle
  timer (src/index.js lines 2158-2403).

Stateful callback code is modelled as executable step functions on
explicit state records, with event traces folded over the step function.
-/

namespace KockaKanon

/-! ## Constants (src/index.js lines 1676-1687, 2558-2559) -/

def SERVO_MIN : ℚ := 0
def SERVO_MAX : ℚ := 270
def SERVO_CENTER : ℚ := 135
def TRACK_GAIN : ℚ := 70
def TRACK_MAX_STEP : ℚ := 10

/-! ## Proportional controller

src/index.js lines 2626-2637 (identical in src/unnamed/part_001
lines 866-876):

  const offsetX = msg.cx - 0.5;
  const rawDH = -offsetX * TRACK_GAIN;
  const dH = Math.max(-TRACK_MAX_STEP, Math.min(TRACK_MAX_STEP, rawDH));
  const newH = Math.max(SERVO_MIN, Math.min(SERVO_MAX, Math.round(state.horizontal + dH)));

JavaScript Math.round is floor(x + 1/2) (ties go toward +infinity).
-/

/-- JavaScript Math.round: floor of x + 1/2. -/
def jsRound (q : ℚ) : ℤ := ⌊q + 1/2⌋

/-- The clamped per-cycle delta computed from a normalized offset:
rawD = -offset * TRACK_GAIN, clamped to [-TRACK_MAX_STEP, TRACK_MAX_STEP]. -/
def trackDelta (offset : ℚ) : ℚ :=
  max (-TRACK_MAX_STEP) (min TRACK_MAX_STEP (-offset * TRACK_GAIN))

/-- The new target position for one axis: current position plus clamped
delta, rounded, clamped to the servo range. -/
def trackNewPos (pos offset : ℚ) : ℚ :=
  max SERVO_MIN (min SERVO_MAX ((jsRound (pos + trackDelta offset) : ℤ) : ℚ))

/-! ## readServoState (src/index.js lines 1606-1619)

  const h = parseFloat(parts[0]);
  return {
    horizontal: Number.isFinite(h) ? Math.max(SERVO_MIN, Math.min(SERVO_MAX, h)) : SERVO_CENTER,
    ... }
  catch: return { horizontal: SERVO_CENTER, vertical: SERVO_CENTER }

One axis of the read is a function of the parsed value; `none` stands for
an unreadable file or a non-numeric (NaN/infinite) parse result. -/
def readServoStateAxis : Option ℚ → ℚ
  | none => SERVO_CENTER
  | some v => max SERVO_MIN (min SERVO_MAX v)

/-! ## Camera stream lifecycle (src/index.js lines 2158-2403)

State of the stream lifecycle manager: the UI viewer reference count
uiStreamClients, the idle grace timer cameraIdleTimer, the producer
process handle cameraProcess (modelled as a running flag), the viewer
set cameraClients (modelled by its size), and the cached latestFrame.
starts/stops are ghost counters of producer spawns and idle-stop kills. -/
structure CamState where
  uiStreamClients : Nat
  cameraIdleTimer : Bool
  cameraRunning : Bool
  cameraClients : Nat
  latestFrame : Option (List Nat)
  starts : Nat
  stops : Nat
deriving DecidableEq

/-- Events of the stream lifecycle: a UI client attach on /camera/stream
(at the currently active quality), a client disconnect (cleanup), the idle
grace timer firing, and the producer process exit handler. -/
inductive CamEvent
  | uiAttach
  | uiDetach
  | idleFire
  | producerExit
deriving DecidableEq

/-- One step of the stream lifecycle (src/index.js lines 2335-2403 for
attach/cleanup/idle timer, lines 2215-2222 for the exit handler).

uiAttach: cancels any pending idle timer; if the producer is not running
it is stopped-and-restarted (startCameraStream resets the viewer set and
cached frame); then uiStreamClients is incremented and the response sink
joins cameraClients. The request quality is held equal to currentQuality,
so needsRestart reduces to the producer not running.

uiDetach (cleanup): removes the sink, decrements uiStreamClients clamped
at 0, and arms the idle timer when the count reaches 0.

idleFire: if the count is still 0 and the producer is running, the
producer is killed (the exit handler then performs the state cleanup).

producerExit: the exit handler clears the viewer set and the cached
frame and nulls the process handle. -/
def camStep (s : CamState) : CamEvent → CamState
  | .uiAttach =>
    let s1 := { s with cameraIdleTimer := false }
    let s2 := if s1.cameraRunning then s1
      else { s1 with cameraRunning := true, starts := s1.starts + 1,
                     cameraClients := 0, latestFrame := none }
    { s2 with uiStreamClients := s2.uiStreamClients + 1,
              cameraClients := s2.cameraClients + 1 }
  | .uiDetach =>
    let n := s.uiStreamClients - 1
    { s with cameraClients := s.cameraClients - 1,
             uiStreamClients := n,
             cameraIdleTimer := if n = 0 then true else s.cameraIdleTimer }
  | .idleFire =>
    if s.cameraIdleTimer then
      let s1 := { s with cameraIdleTimer := false }
      if s1.uiStreamClients = 0 ∧ s1.cameraRunning then
        { s1 with cameraRunning := false, stops := s1.stops + 1 }
      else s1
    else s
  | .producerExit =>
    { s with cameraRunning := false, cameraClients := 0, latestFrame := none }

/-- Initial lifecycle state: no clients, no timer, producer not running. -/
def camInit : CamState :=
  { uiStreamClients := 0, cameraIdleTimer := false, cameraRunning := false,
    cameraClients := 0, latestFrame := none, starts := 0, stops := 0 }

/-- Run the lifecycle over a trace of events. -/
def camExec (s : CamState) (es : List CamEvent) : CamState :=
  es.foldl camStep s

/-! ## Viewer busy flag (src/index.js lines 2249-2257, 2372-2380)

Per-viewer fan-out in broadcastFrame:

  if (client.busy) continue;
  client.busy = true;
  client.write(header);
  client.write(frame);
  client.write("\r\n", () => { client.busy = false; });

The three writes are issued synchronously in the loop; the busy flag is
cleared only by the completion callback of the final write. -/

/-- One write call issued to a viewer sink: the multipart header naming
the frame byte length, the frame bytes, or the trailing separator. -/
inductive WriteItem
  | header (len : ℕ)
  | body (frame : List ℕ)
  | sep
deriving DecidableEq

/-- A viewer: an output sink (modelled by the log of write calls issued
to it) plus the busy backpressure flag. -/
structure Viewer where
  busy : Bool
  writes : List WriteItem
deriving DecidableEq

/-- Events seen by one viewer: the broadcast loop reaching it with a
frame, and the completion callback of the final write of a burst. -/
inductive ViewerEvent
  | bcast (frame : List ℕ)
  | writeDone
deriving DecidableEq

/-- One viewer step of the broadcast loop: a busy viewer is skipped
outright (the frame is dropped, never queued); an idle viewer is marked
busy and receives the header/body/separator writes; the completion
callback clears the flag. -/
def viewerStep (v : Viewer) : ViewerEvent → Viewer
  | .bcast f =>
    if v.busy then v
    else { busy := true,
           writes := v.writes ++ [WriteItem.header f.length, WriteItem.body f, WriteItem.sep] }
  | .writeDone => { v with busy := false }

/-- Fold a viewer over a trace of events. -/
def viewerRun (v : Viewer) (es : List ViewerEvent) : Viewer :=
  es.foldl viewerStep v

/-! ## Motion-tracking controller of src/index.js (lines 2561-2667)

The stdout handler of motionTrackerProcess: for each active detection
line it applies the P-controller, issues servo commands unless a previous
move is still in flight, and persists the new position via
writeServoState only after the commands are acknowledged and only if
servoTrackingEnabled (SEEK) is still set. -/
structure TrackState where
  motionTrackingActive : Bool
  servoTrackingEnabled : Bool
  motionTrackerMoveInFlight : Bool
  fileH : ℚ
  fileV : ℚ
  pendingMove : Option (ℚ × ℚ)
deriving DecidableEq

/-- A servo command issued by the tracking controller. -/
inductive ServoMove
  | setH (angle : ℚ)
  | setV (angle : ℚ)
deriving DecidableEq

/-- Events of the tracking controller: an active detection line with
centroid (cx, cy), acknowledgment or failure of the in-flight
Promise.all(cmds), and the SEEK enable/disable routes. -/
inductive TrackEvent
  | detect (cx cy : ℚ)
  | ackOk
  | ackFail
  | seekEnable
  | seekDisable
deriving DecidableEq

/-- One step of the motion-tracking controller, returning the successor
state and the servo commands issued by the step.

detect: skipped when SEEK is off or a move is in flight; otherwise the
P-controller computes the new clamped targets from the persisted state
file; a command is issued per axis whose target differs from the current
position; if any command is issued the in-flight flag is set and the
target is recorded for the acknowledgment.

ackOk: writeServoState(newH, newV) runs only if servoTrackingEnabled is
still set; the in-flight flag clears in the finally block.

ackFail: the catch path logs and the finally block clears the in-flight
flag; the file is untouched. -/
def trackStep (s : TrackState) : TrackEvent → TrackState × List ServoMove
  | .detect cx cy =>
    if s.servoTrackingEnabled = false then (s, [])
    else if s.motionTrackerMoveInFlight then (s, [])
    else
      let posH := readServoStateAxis (some s.fileH)
      let posV := readServoStateAxis (some s.fileV)
      let newH := trackNewPos posH (cx - 1/2)
      let newV := trackNewPos posV (cy - 1/2)
      let cmds := (if newH ≠ posH then [ServoMove.setH newH] else []) ++
                  (if newV ≠ posV then [ServoMove.setV newV] else [])
      if cmds = [] then (s, [])
      else ({ s with motionTrackerMoveInFlight := true,
                     pendingMove := some (newH, newV) }, cmds)
  | .ackOk =>
    match s.pendingMove with
    | none => (s, [])
    | some (h, v) =>
      let s1 := if s.servoTrackingEnabled then { s with fileH := h, fileV := v } else s
      ({ s1 with motionTrackerMoveInFlight := false, pendingMove := none }, [])
  | .ackFail =>
    ({ s with motionTrackerMoveInFlight := false, pendingMove := none }, [])
  | .seekEnable => ({ s with servoTrackingEnabled := true }, [])
  | .seekDisable => ({ s with servoTrackingEnabled := false }, [])

/-! ## Fire/cooldown state machine (src/unnamed/part_001 lines 784-933)

The snapshot's motion tracker adds a fire-and-cooldown machine: the
first active frame of a bout arms a settle timer (FIRE_SETTLE_MS); when
it fires, motionCooldown is set before the cannon-trigger fetch is
issued; the cooldown timer armed after the fetch releases the cooldown
(FIRE_COOLDOWN_MS later) and re-arms the bout state.  While
motionCooldown holds, active frames are skipped entirely. -/
structure FireState where
  motionTrackingActive : Bool
  motionCooldown : Bool
  motionBoutActive : Bool
  motionServoInflight : Bool
  settleArmed : Bool
  cooldownArmed : Bool
  fileH : ℚ
  fileV : ℚ
deriving DecidableEq

/-- Observable actions of the fire/cooldown machine: servo commands and
the cannon-trigger fetch. -/
inductive FireOutput
  | move (m : ServoMove)
  | trigger
deriving DecidableEq

/-- Events: an active detection frame, a quiet frame, the settle timer
callback, the cooldown timer callback, completion of the trigger fetch
(which arms the cooldown timer), completion of the in-flight servo
promise, and stopMotionTracking / process exit. -/
inductive FireEvent
  | activeFrame (cx cy : ℚ)
  | quietFrame
  | settleFire
  | cooldownFire
  | triggerDone
  | servoDone
  | stop
deriving DecidableEq

/-- One step of the fire/cooldown machine (src/unnamed/part_001
lines 829-933), returning the successor state and the emitted actions.

activeFrame: during cooldown everything is skipped; otherwise the
P-controller runs and servoCmd is invoked at cmds.push time for every
axis whose target differs, so the SET commands are written to the daemon
even while a previous servo promise is in flight; the
`cmds.length && !motionServoInflight` guard only gates setting the
in-flight flag, the immediate writeServoState of the new position, and
the attached catch/finally handlers.  The first active frame of a bout
arms the settle timer.

quietFrame: ends the bout and cancels a pending settle timer.

settleFire: only has an effect while the timer is pending; it nulls the
timer, returns if in cooldown or tracking stopped, else sets
motionCooldown (before the trigger fetch is issued) and issues the
trigger.

triggerDone: the code after `await fetch` arms the cooldown timer.

cooldownFire: releases the cooldown and re-arms the bout state.

stop: stopMotionTracking / the exit handler clear all flags and timers. -/
def fireStep (s : FireState) : FireEvent → FireState × List FireOutput
  | .activeFrame cx cy =>
    if s.motionCooldown then (s, [])
    else
      let posH := readServoStateAxis (some s.fileH)
      let posV := readServoStateAxis (some s.fileV)
      let newH := trackNewPos posH (cx - 1/2)
      let newV := trackNewPos posV (cy - 1/2)
      let cmds := (if newH ≠ posH then [ServoMove.setH newH] else []) ++
                  (if newV ≠ posV then [ServoMove.setV newV] else [])
      let s1 :=
        if cmds ≠ [] ∧ s.motionServoInflight = false then
          { s with motionServoInflight := true, fileH := newH, fileV := newV }
        else s
      if s1.motionBoutActive then (s1, cmds.map FireOutput.move)
      else ({ s1 with motionBoutActive := true, settleArmed := true },
            cmds.map FireOutput.move)
  | .quietFrame =>
    if s.motionBoutActive then
      ({ s with motionBoutActive := false, settleArmed := false }, [])
    else (s, [])
  | .settleFire =>
    if s.settleArmed = false then (s, [])
    else
      let s0 := { s with settleArmed := false }
      if s0.motionCooldown ∨ s0.motionTrackingActive = false then (s0, [])
      else ({ s0 with motionCooldown := true }, [FireOutput.trigger])
  | .cooldownFire =>
    if s.cooldownArmed = false then (s, [])
    else ({ s with cooldownArmed := false, motionCooldown := false,
                   motionBoutActive := false }, [])
  | .triggerDone => ({ s with cooldownArmed := true }, [])
  | .servoDone => ({ s with motionServoInflight := false }, [])
  | .stop =>
    ({ s with motionTrackingActive := false, motionCooldown := false,
              motionBoutActive := false, motionServoInflight := false,
              settleArmed := false, cooldownArmed := false }, [])

/-- Fold the fire/cooldown machine over a trace, state only. -/
def fireRun (s : FireState) (es : List FireEvent) : FireState :=
  es.foldl (fun t e => (fireStep t e).1) s

/-- All actions emitted while folding the machine over a trace. -/
def fireOutputs (s : FireState) : List FireEvent → List FireOutput
  | [] => []
  | e :: rest => (fireStep s e).2 ++ fireOutputs (fireStep s e).1 rest

/-- Events that neither release the cooldown nor tear the session down:
anything but the cooldown timer callback and stop. -/
def keepsCooldown (e : FireEvent) : Prop :=
  e ≠ FireEvent.cooldownFire ∧ e ≠ FireEvent.stop

instance (e : FireEvent) : Decidable (keepsCooldown e) := by
  unfold keepsCooldown; infer_instance

/-! ## MJPEG frame extraction (src/index.js lines 2231-2258)

broadcastFrame appends the chunk to frameBuffer and loops:

  const startIdx = frameBuffer.indexOf(jpegStart);      // [0xff, 0xd8]
  if (startIdx === -1) break;
  const endIdx = frameBuffer.indexOf(jpegEnd, startIdx); // [0xff, 0xd9]
  if (endIdx === -1) break;
  const frame = frameBuffer.subarray(startIdx, endIdx + 2);
  frameBuffer = frameBuffer.subarray(endIdx + 2);
  latestFrame = frame; ... broadcast ...

Bytes are modelled as naturals (0xff = 255, 0xd8 = 216, 0xd9 = 217). -/

/-- Buffer.indexOf for a two-byte pattern: index of the first occurrence
of the adjacent pair (b1, b2), or none. -/
def findMarker (b1 b2 : ℕ) : List ℕ → Option ℕ
  | [] => none
  | [_] => none
  | a :: b :: rest =>
    if a = b1 ∧ b = b2 then some 0
    else (findMarker b1 b2 (b :: rest)).map (· + 1)

/-- Buffer.indexOf with a start offset (the search for the end marker
starts at startIdx). -/
def findMarkerFrom (b1 b2 : ℕ) (buf : List ℕ) (start : ℕ) : Option ℕ :=
  (findMarker b1 b2 (buf.drop start)).map (· + start)

/-- One iteration of the while loop of broadcastFrame: locate the start
marker, locate the end marker from there, cut out the frame (start
through end marker inclusive) and the rest of the buffer; none when
either marker is missing (the loop breaks, keeping the buffer). -/
def frameScanStep (buf : List ℕ) : Option (List ℕ × List ℕ) :=
  match findMarker 255 216 buf with
  | none => none
  | some s =>
    match findMarkerFrom 255 217 buf s with
    | none => none
    | some e => some ((buf.drop s).take (e + 2 - s), buf.drop (e + 2))

/-- The extraction loop with explicit fuel; each iteration strictly
shrinks the buffer, so buf.length fuel is always enough. -/
def extractGo : ℕ → List ℕ → List (List ℕ) × List ℕ
  | 0, buf => ([], buf)
  | fuel + 1, buf =>
    match frameScanStep buf with
    | none => ([], buf)
    | some p =>
      let q := extractGo fuel p.2
      (p.1 :: q.1, q.2)

/-- All complete frames of the buffer in order, and the trailing
remainder left in frameBuffer when the loop breaks. -/
def extractFrames (buf : List ℕ) : List (List ℕ) × List ℕ :=
  extractGo buf.length buf

/-- Feeding a sequence of chunks to broadcastFrame one at a time,
starting from the given residual frameBuffer: returns all emitted
frames in order and the final frameBuffer. -/
def ingestAll : List ℕ → List (List ℕ) → List (List ℕ) × List ℕ
  | buf, [] => ([], buf)
  | buf, c :: cs =>
    let p := extractFrames (buf ++ c)
    let q := ingestAll p.2 cs
    (p.1 ++ q.1, q.2)

/-! ## Actuator link (src/index.js lines 1754-1814)

servoCmd assigns id = ++servoSeq, stores a response callback keyed by
the id, arms a 3000 ms timeout, and writes the tagged line to the
daemon's stdin; the stdout handler of startServoDaemon resolves and
removes the callback whose key matches an incoming SEQ:<id> line; the
timeout handler deletes the entry and rejects.  The response path clears
the timeout synchronously inside the callback and the timeout path
deletes the callback entry, so on the single-threaded event loop a timer
is armed exactly while its map entry is live; the armed-timer set is
therefore identified with the callback-key set below. -/

/-- How an in-flight servoCmd promise was settled: by the daemon response
line tagged with the given sequence id, or by the 3-second timeout armed
for the given sequence id. -/
inductive Settle
  | response (id : ℕ)
  | timeout (id : ℕ)
deriving DecidableEq

/-- The actuator-link state: the servoSeq counter, the pending-callback
map as an association list of (sequence id, caller id) in insertion
order, the readiness flag and daemon process handle, and ghost logs:
ids handed to callers, settlements (caller id, how), and the sequence
ids written to the daemon's stdin. -/
structure ServoLink where
  servoSeq : ℕ
  servoCallbacks : List (ℕ × ℕ)
  servoReady : Bool
  daemonUp : Bool
  issued : List ℕ
  settled : List (ℕ × Settle)
  stdinWrites : List ℕ
deriving DecidableEq

/-- Result of one servoCmd call: an immediate rejection with the
daemon-not-ready error, or a pending promise identified by its id. -/
inductive CallResult
  | rejectedNotReady
  | pending (id : ℕ)
deriving DecidableEq

/-- Association-list lookup on the pending-callback map (Map.get keyed
by sequence id). -/
def lookupSeq : List (ℕ × ℕ) → ℕ → Option ℕ
  | [], _ => none
  | p :: rest, k => if p.1 = k then some p.2 else lookupSeq rest k

/-- Association-list removal of the first entry with the given key
(Map.delete keyed by sequence id). -/
def deleteSeq : List (ℕ × ℕ) → ℕ → List (ℕ × ℕ)
  | [], _ => []
  | p :: rest, k => if p.1 = k then rest else p :: deleteSeq rest k

/-- servoCmd (src/index.js lines 1797-1814): when the link is not ready
or the daemon handle is null, the promise rejects immediately and
nothing else happens; otherwise the next sequence id is assigned, the
callback entry is stored, the timeout armed and the tagged command line
written to stdin. -/
def servoCmdStep (s : ServoLink) : ServoLink × CallResult :=
  if s.servoReady = false ∨ s.daemonUp = false then (s, CallResult.rejectedNotReady)
  else
    let id := s.servoSeq + 1
    ({ s with servoSeq := id,
              servoCallbacks := s.servoCallbacks ++ [(id, id)],
              issued := s.issued ++ [id],
              stdinWrites := s.stdinWrites ++ [id] },
     CallResult.pending id)

/-- The stdout handler for a tagged SEQ:<id> response line (src/index.js
lines 1777-1782): the callback stored under the id, if any, is removed
and invoked, settling that caller; a stray id is ignored. -/
def responseStep (s : ServoLink) (id : ℕ) : ServoLink :=
  match lookupSeq s.servoCallbacks id with
  | none => s
  | some c =>
    { s with servoCallbacks := deleteSeq s.servoCallbacks id,
             settled := s.settled ++ [(c, Settle.response id)] }

/-- The timeout handler armed by servoCmd for its own id (src/index.js
lines 1804-1807): if the timer is still armed (the entry is live), the
entry is deleted and that caller's promise rejected with the timeout
error. -/
def timeoutStep (s : ServoLink) (id : ℕ) : ServoLink :=
  if (lookupSeq s.servoCallbacks id).isSome then
    { s with servoCallbacks := deleteSeq s.servoCallbacks id,
             settled := s.settled ++ [(id, Settle.timeout id)] }
  else s

/-- Events interleaving at the actuator link: a servoCmd call, a tagged
response line for a sequence id, a timeout firing for a sequence id, the
bare READY line, the daemon exit handler, and the respawn after the 1 s
backoff. -/
inductive LinkEvent
  | call
  | response (id : ℕ)
  | timeoutFire (id : ℕ)
  | readyLine
  | daemonExit
  | daemonSpawn
deriving DecidableEq

/-- One actuator-link step. -/
def linkStep (s : ServoLink) : LinkEvent → ServoLink
  | .call => (servoCmdStep s).1
  | .response id => responseStep s id
  | .timeoutFire id => timeoutStep s id
  | .readyLine => { s with servoReady := true }
  | .daemonExit => { s with servoReady := false, daemonUp := false }
  | .daemonSpawn => { s with daemonUp := true }

/-- The link state at process start: startServoDaemon has spawned the
daemon, no command sent yet, READY not yet seen. -/
def linkInit : ServoLink :=
  { servoSeq := 0, servoCallbacks := [], servoReady := false, daemonUp := true,
    issued := [], settled := [], stdinWrites := [] }

/-- Run the actuator link over a trace of events. -/
def linkRun (s : ServoLink) (es : List LinkEvent) : ServoLink :=
  es.foldl linkStep s

/-- The correlation invariant of the actuator link. -/
def LinkInv (s : ServoLink) : Prop :=
  (s.servoCallbacks.map Prod.fst).Nodup ∧
  (∀ p ∈ s.servoCallbacks, p.2 = p.1 ∧ p.1 ∈ s.issued ∧ p.1 ≤ s.servoSeq) ∧
  s.issued.Nodup ∧
  (∀ i ∈ s.issued, i ≤ s.servoSeq) ∧
  (s.settled.map Prod.fst).Nodup ∧
  (∀ q ∈ s.settled,
    (q.2 = Settle.response q.1 ∨ q.2 = Settle.timeout q.1) ∧
    q.1 ∈ s.issued ∧ q.1 ≤ s.servoSeq) ∧
  (∀ i ∈ s.issued,
    i ∈ s.servoCallbacks.map Prod.fst ∨ i ∈ s.settled.map Prod.fst) ∧
  (∀ p ∈ s.servoCallbacks, p.1 ∉ s.settled.map Prod.fst)

/-- Helper: a failed lookup means the key is absent. -/
theorem lookupSeq_eq_none_iff (l : List (ℕ × ℕ)) (k : ℕ) :
    lookupSeq l k = none ↔ k ∉ l.map Prod.fst := by
  induction l with
  | nil => simp [lookupSeq]
  | cons p rest ih =>
    simp only [lookupSeq, List.map_cons, List.mem_cons]
    split
    · rename_i hp
      simp [hp.symm]
    · rename_i hp
      rw [ih]
      constructor
      · intro hk h
        rcases h with h1 | h2
        · exact hp h1.symm
        · exact hk h2
      · intro hk h2
        exact hk (Or.inr h2)

/-- Helper: a successful lookup returns an entry of the list with the
looked-up key. -/
theorem lookupSeq_mem (l : List (ℕ × ℕ)) (k c : ℕ)
    (h : lookupSeq l k = some c) : (k, c) ∈ l := by
  induction l with
  | nil => simp [lookupSeq] at h
  | cons p rest ih =>
    simp only [lookupSeq] at h
    split at h
    · rename_i hp
      simp only [Option.some.injEq] at h
      have hkc : (k, c) = p := Prod.ext_iff.mpr ⟨hp.symm, h.symm⟩
      rw [hkc]
      exact List.mem_cons_self p rest
    · exact List.mem_cons_of_mem p (ih h)

/-- Helper: deleting a key yields a sublist. -/
theorem deleteSeq_sublist (l : List (ℕ × ℕ)) (k : ℕ) :
    (deleteSeq l k).Sublist l := by
  induction l with
  | nil => simp [deleteSeq]
  | cons p rest ih =>
    simp only [deleteSeq]
    split
    · exact (List.sublist_cons_self p rest)
    · exact ih.cons₂ p

/-- Helper: under key nodup, an entry surviving the delete is an entry of
the original list whose key differs from the deleted one. -/
theorem mem_deleteSeq (l : List (ℕ × ℕ)) (k : ℕ) (p : ℕ × ℕ)
    (hnd : (l.map Prod.fst).Nodup) (h : p ∈ deleteSeq l k) :
    p ∈ l ∧ p.1 ≠ k := by
  induction l with
  | nil => simp [deleteSeq] at h
  | cons q rest ih =>
    simp only [List.map_cons, List.nodup_cons] at hnd
    simp only [deleteSeq] at h
    split at h
    · rename_i hq
      refine ⟨List.mem_cons_of_mem q h, fun hk => ?_⟩
      apply hnd.1
      rw [hq, ← hk]
      exact List.mem_map_of_mem Prod.fst h
    · rename_i hq
      rcases List.mem_cons.mp h with h | h
      · subst h
        exact ⟨List.mem_cons_self p rest, hq⟩
      · have h2 := ih hnd.2 h
        exact ⟨List.mem_cons_of_mem q h2.1, h2.2⟩

/-- Helper: a key different from the deleted one stays present. -/
theorem mem_keys_deleteSeq (l : List (ℕ × ℕ)) (k i : ℕ)
    (h : i ∈ l.map Prod.fst) (hne : i ≠ k) :
    i ∈ (deleteSeq l k).map Prod.fst := by
  induction l with
  | nil => simp at h
  | cons q rest ih =>
    simp only [List.map_cons, List.mem_cons] at h
    simp only [deleteSeq]
    split
    · rename_i hq
      rcases h with h | h
      · exact absurd (h.trans hq) hne
      · exact h
    · rcases h with h | h
      · simp [h]
      · simp only [List.map_cons, List.mem_cons]
        exact Or.inr (ih h)

/-- Helper: a found marker index points below the end of the buffer
(the two marker bytes sit at i and i+1). -/
theorem findMarker_bound (b1 b2 : ℕ) : ∀ (l : List ℕ) (i : ℕ),
    findMarker b1 b2 l = some i → i + 1 < l.length := by
  intro l
  induction l with
  | nil => intro i h; simp [findMarker] at h
  | cons a tail ih =>
    intro i h
    cases tail with
    | nil => simp [findMarker] at h
    | cons b rest =>
      simp only [findMarker] at h
      split at h
      · simp only [Option.some.injEq] at h
        simp only [List.length_cons]
        omega
      · cases hm : findMarker b1 b2 (b :: rest) with
        | none => rw [hm] at h; simp at h
        | some j =>
          rw [hm] at h
          simp only [Option.map_some', Option.some.injEq] at h
          have hj := ih j hm
          simp only [List.length_cons] at hj ⊢
          omega

/-- Helper: the first occurrence of a marker is unmoved by appending
bytes to the buffer. -/
theorem findMarker_append (b1 b2 : ℕ) (ext : List ℕ) : ∀ (l : List ℕ) (i : ℕ),
    findMarker b1 b2 l = some i → findMarker b1 b2 (l ++ ext) = some i := by
  intro l
  induction l with
  | nil => intro i h; simp [findMarker] at h
  | cons a tail ih =>
    intro i h
    cases tail with
    | nil => simp [findMarker] at h
    | cons b rest =>
      simp only [findMarker] at h
      simp only [List.cons_append, findMarker]
      split at h
      · rename_i hcond
        rw [if_pos hcond]
        exact h
      · rename_i hcond
        rw [if_neg hcond]
        cases hm : findMarker b1 b2 (b :: rest) with
        | none => rw [hm] at h; simp at h
        | some j =>
          rw [hm] at h
          have h2 := ih j hm
          simp only [List.cons_append, List.append_eq] at h2 ⊢
          rw [h2]
          exact h

/-- Helper: one loop iteration commutes with appending bytes: the same
frame is cut and the appended bytes land in the rest. -/
theorem frameScanStep_append (a ext : List ℕ) (p : List ℕ × List ℕ)
    (h : frameScanStep a = some p) :
    frameScanStep (a ++ ext) = some (p.1, p.2 ++ ext) := by
  unfold frameScanStep at h ⊢
  cases hs : findMarker 255 216 a with
  | none =>
    simp only [hs] at h
    exact Option.noConfusion h
  | some s =>
    simp only [hs] at h
    cases he : findMarkerFrom 255 217 a s with
    | none =>
      simp only [he] at h
      exact Option.noConfusion h
    | some e =>
      simp only [he, Option.some.injEq] at h
      subst h
      have hsb := findMarker_bound 255 216 a s hs
      have hm2 := he
      unfold findMarkerFrom at hm2
      cases hm : findMarker 255 217 (a.drop s) with
      | none => rw [hm] at hm2; simp at hm2
      | some e1 =>
        rw [hm] at hm2
        simp only [Option.map_some', Option.some.injEq] at hm2
        have heb := findMarker_bound 255 217 (a.drop s) e1 hm
        rw [List.length_drop] at heb
        have hlen : e + 2 ≤ a.length := by omega
        have hdrop : (a ++ ext).drop s = a.drop s ++ ext :=
          List.drop_append_of_le_length (by omega)
        have hfm2 : findMarkerFrom 255 217 (a ++ ext) s = some e := by
          unfold findMarkerFrom
          rw [hdrop, findMarker_append 255 217 ext (a.drop s) e1 hm]
          simp only [Option.map_some']
          rw [hm2]
        simp only [findMarker_append 255 216 ext a s hs, hfm2]
        have hframe : ((a ++ ext).drop s).take (e + 2 - s) =
            (a.drop s).take (e + 2 - s) := by
          rw [hdrop]
          exact List.take_append_of_le_length (by rw [List.length_drop]; omega)
        rw [hframe, List.drop_append_of_le_length hlen]

/-- Helper: each successful loop iteration strictly shrinks the buffer. -/
theorem frameScanStep_rest_lt (buf : List ℕ) (p : List ℕ × List ℕ)
    (h : frameScanStep buf = some p) : p.2.length < buf.length := by
  unfold frameScanStep at h
  cases hs : findMarker 255 216 buf with
  | none =>
    simp only [hs] at h
    exact Option.noConfusion h
  | some s =>
    simp only [hs] at h
    cases he : findMarkerFrom 255 217 buf s with
    | none =>
      simp only [he] at h
      exact Option.noConfusion h
    | some e =>
      simp only [he, Option.some.injEq] at h
      subst h
      have hsb := findMarker_bound 255 216 buf s hs
      dsimp only
      rw [List.length_drop]
      omega

/-- Helper: the extraction loop does not depend on the fuel once the fuel
covers the buffer length. -/
theorem extractGo_agree : ∀ (f1 f2 : ℕ) (buf : List ℕ),
    buf.length ≤ f1 → buf.length ≤ f2 → extractGo f1 buf = extractGo f2 buf := by
  intro f1
  induction f1 with
  | zero =>
    intro f2 buf h1 h2
    have hb : buf = [] := List.eq_nil_of_length_eq_zero (Nat.le_zero.mp h1)
    subst hb
    cases f2 <;> rfl
  | succ n ih =>
    intro f2 buf h1 h2
    cases f2 with
    | zero =>
      have hb : buf = [] := List.eq_nil_of_length_eq_zero (Nat.le_zero.mp h2)
      subst hb
      rfl
    | succ m =>
      simp only [extractGo]
      cases hp : frameScanStep buf with
      | none => rfl
      | some p =>
        dsimp only
        have hlt := frameScanStep_rest_lt buf p hp
        rw [ih m p.2 (by omega) (by omega)]

/-- Helper: unfolding extractFrames when the loop breaks at once. -/
theorem extractFrames_eq_none (buf : List ℕ) (h : frameScanStep buf = none) :
    extractFrames buf = ([], buf) := by
  unfold extractFrames
  cases hl : buf.length with
  | zero => rfl
  | succ n => simp [extractGo, h]

/-- Helper: unfolding extractFrames when the loop cuts a frame. -/
theorem extractFrames_eq_some (buf : List ℕ) (p : List ℕ × List ℕ)
    (h : frameScanStep buf = some p) :
    extractFrames buf = (p.1 :: (extractFrames p.2).1, (extractFrames p.2).2) := by
  unfold extractFrames
  cases hl : buf.length with
  | zero =>
    have hb : buf = [] := List.eq_nil_of_length_eq_zero hl
    rw [hb] at h
    simp [frameScanStep, findMarker] at h
  | succ n =>
    simp only [extractGo, h]
    have hlt := frameScanStep_rest_lt buf p h
    rw [extractGo_agree n p.2.length p.2 (by omega) (le_refl _)]

/-- Helper: the streaming decomposition of the extraction loop: running
it on a ++ b yields the frames of a followed by the frames of the
residual of a glued to b, with the corresponding residual. -/
theorem extract_append : ∀ (n : ℕ) (a b : List ℕ), a.length ≤ n →
    extractFrames (a ++ b) =
      ((extractFrames a).1 ++ (extractFrames ((extractFrames a).2 ++ b)).1,
       (extractFrames ((extractFrames a).2 ++ b)).2) := by
  intro n
  induction n with
  | zero =>
    intro a b h
    have ha : a = [] := List.eq_nil_of_length_eq_zero (Nat.le_zero.mp h)
    subst ha
    have h0 : extractFrames ([] : List ℕ) = ([], []) := rfl
    rw [h0]
    simp
  | succ n ih =>
    intro a b hle
    cases hp : frameScanStep a with
    | none =>
      rw [extractFrames_eq_none a hp]
      simp
    | some p =>
      have h4 := frameScanStep_append a b p hp
      rw [extractFrames_eq_some (a ++ b) (p.1, p.2 ++ b) h4,
          extractFrames_eq_some a p hp]
      have hlt := frameScanStep_rest_lt a p hp
      have ihp := ih p.2 b (by omega)
      dsimp only
      rw [ihp]
      simp

/-- Helper: the residual buffer after extraction holds no complete
frame. -/
theorem extract_residual_none : ∀ (n : ℕ) (buf : List ℕ), buf.length ≤ n →
    frameScanStep (extractFrames buf).2 = none := by
  intro n
  induction n with
  | zero =>
    intro buf h
    have hb : buf = [] := List.eq_nil_of_length_eq_zero (Nat.le_zero.mp h)
    subst hb
    rfl
  | succ n ih =>
    intro buf h
    cases hp : frameScanStep buf with
    | none =>
      rw [extractFrames_eq_none buf hp]
      exact hp
    | some p =>
      rw [extractFrames_eq_some buf p hp]
      dsimp only
      have hlt := frameScanStep_rest_lt buf p hp
      exact ih p.2 (by omega)

/-- Helper: feeding chunks one at a time from a residual (frame-free)
buffer gives exactly the one-shot extraction of the concatenation. -/
theorem ingestAll_spec : ∀ (cs : List (List ℕ)) (buf : List ℕ),
    frameScanStep buf = none →
    ingestAll buf cs = extractFrames (buf ++ cs.flatten) := by
  intro cs
  induction cs with
  | nil =>
    intro buf h
    simp only [ingestAll, List.flatten_nil, List.append_nil]
    rw [extractFrames_eq_none buf h]
  | cons c rest ih =>
    intro buf h
    simp only [ingestAll, List.flatten_cons]
    rw [ih (extractFrames (buf ++ c)).2
        (extract_residual_none (buf ++ c).length (buf ++ c) (le_refl _))]
    rw [← List.append_assoc]
    rw [extract_append (buf ++ c).length (buf ++ c) rest.flatten (le_refl _)]

/-- Helper: settling a live entry (removing it and logging the caller's
own settlement) preserves the link invariant. -/
theorem settle_preserves_inv (s : ServoLink) (id : ℕ) (how : Settle)
    (h : LinkInv s) (hsome : (lookupSeq s.servoCallbacks id).isSome)
    (hhow : how = Settle.response id ∨ how = Settle.timeout id) :
    LinkInv { s with servoCallbacks := deleteSeq s.servoCallbacks id,
                     settled := s.settled ++ [(id, how)] } := by
  obtain ⟨h1, h2, h3, h4, h5, h6, h7, h8⟩ := h
  obtain ⟨c, hl⟩ := Option.isSome_iff_exists.mp hsome
  have hmem : (id, c) ∈ s.servoCallbacks := lookupSeq_mem _ _ _ hl
  have hid_issued : id ∈ s.issued := (h2 _ hmem).2.1
  have hid_le : id ≤ s.servoSeq := (h2 _ hmem).2.2
  have hid_ns : id ∉ s.settled.map Prod.fst := h8 _ hmem
  have hsub : ((deleteSeq s.servoCallbacks id).map Prod.fst).Sublist
      (s.servoCallbacks.map Prod.fst) := (deleteSeq_sublist _ _).map _
  refine ⟨?_, ?_, h3, h4, ?_, ?_, ?_, ?_⟩
  · exact h1.sublist hsub
  · intro p hp
    exact h2 p (mem_deleteSeq _ _ _ h1 hp).1
  · simp only [List.map_append, List.map_cons, List.map_nil]
    refine List.Nodup.append h5 (List.nodup_singleton id) ?_
    intro x hx hy
    exact hid_ns (List.mem_singleton.mp hy ▸ hx)
  · intro q hq
    rcases List.mem_append.mp hq with hq | hq
    · exact h6 q hq
    · rw [List.mem_singleton.mp hq]
      exact ⟨hhow, hid_issued, hid_le⟩
  · intro i hi
    rcases h7 i hi with hk | hs
    · by_cases hii : i = id
      · subst hii
        right
        simp
      · exact Or.inl (mem_keys_deleteSeq _ _ _ hk hii)
    · right
      rw [List.map_append]
      exact List.mem_append_left _ hs
  · intro p hp
    have hdp := mem_deleteSeq _ _ _ h1 hp
    rw [List.map_append]
    intro hmem2
    rcases List.mem_append.mp hmem2 with hmm | hmm
    · exact h8 _ hdp.1 hmm
    · simp only [List.map_cons, List.map_nil, List.mem_singleton] at hmm
      exact hdp.2 hmm

/-- Helper: every step of the actuator link preserves the correlation
invariant. -/
theorem linkStep_inv (s : ServoLink) (e : LinkEvent) (h : LinkInv s) :
    LinkInv (linkStep s e) := by
  obtain ⟨h1, h2, h3, h4, h5, h6, h7, h8⟩ := h
  have hkeys_le : ∀ k ∈ s.servoCallbacks.map Prod.fst, k ≤ s.servoSeq := by
    intro k hk
    rcases List.mem_map.mp hk with ⟨p, hp, rfl⟩
    exact (h2 p hp).2.2
  cases e with
  | call =>
    simp only [linkStep, servoCmdStep]
    split
    · exact ⟨h1, h2, h3, h4, h5, h6, h7, h8⟩
    · dsimp only
      have hnotk : s.servoSeq + 1 ∉ s.servoCallbacks.map Prod.fst :=
        fun hm => absurd (hkeys_le _ hm) (by omega)
      have hnoti : s.servoSeq + 1 ∉ s.issued :=
        fun hm => absurd (h4 _ hm) (by omega)
      refine ⟨?_, ?_, ?_, ?_, h5, ?_, ?_, ?_⟩
      · simp only [List.map_append, List.map_cons, List.map_nil]
        refine List.Nodup.append h1 (List.nodup_singleton _) ?_
        intro x hx hy
        exact hnotk (List.mem_singleton.mp hy ▸ hx)
      · intro p hp
        rcases List.mem_append.mp hp with hp | hp
        · obtain ⟨e1, e2, e3⟩ := h2 p hp
          exact ⟨e1, List.mem_append_left _ e2, by show p.1 ≤ s.servoSeq + 1; omega⟩
        · rw [List.mem_singleton.mp hp]
          exact ⟨rfl, List.mem_append_right _ (List.mem_singleton_self _), le_refl _⟩
      · refine List.Nodup.append h3 (List.nodup_singleton _) ?_
        intro x hx hy
        exact hnoti (List.mem_singleton.mp hy ▸ hx)
      · intro i hi
        rcases List.mem_append.mp hi with hi | hi
        · exact le_trans (h4 _ hi) (by show s.servoSeq ≤ s.servoSeq + 1; omega)
        · exact le_of_eq (List.mem_singleton.mp hi)
      · intro q hq
        obtain ⟨e1, e2, e3⟩ := h6 q hq
        exact ⟨e1, List.mem_append_left _ e2, by show q.1 ≤ s.servoSeq + 1; omega⟩
      · intro i hi
        rcases List.mem_append.mp hi with hi | hi
        · rcases h7 i hi with hk | hs
          · left
            simp only [List.map_append, List.map_cons, List.map_nil]
            exact List.mem_append_left _ hk
          · exact Or.inr hs
        · left
          simp only [List.map_append, List.map_cons, List.map_nil]
          exact List.mem_append_right _ (by rw [List.mem_singleton.mp hi]; simp)
      · intro p hp
        rcases List.mem_append.mp hp with hp | hp
        · exact h8 p hp
        · rw [List.mem_singleton.mp hp]
          intro hm
          rcases List.mem_map.mp hm with ⟨q, hq, hfst⟩
          have := (h6 q hq).2.2
          omega
  | response id =>
    simp only [linkStep, responseStep]
    cases hl : lookupSeq s.servoCallbacks id with
    | none => exact ⟨h1, h2, h3, h4, h5, h6, h7, h8⟩
    | some c =>
      have hc : c = id := (h2 _ (lookupSeq_mem _ _ _ hl)).1
      rw [hc]
      exact settle_preserves_inv s id (Settle.response id)
        ⟨h1, h2, h3, h4, h5, h6, h7, h8⟩ (by rw [hl]; rfl) (Or.inl rfl)
  | timeoutFire id =>
    simp only [linkStep, timeoutStep]
    split
    · rename_i hsome
      exact settle_preserves_inv s id (Settle.timeout id)
        ⟨h1, h2, h3, h4, h5, h6, h7, h8⟩ hsome (Or.inr rfl)
    · exact ⟨h1, h2, h3, h4, h5, h6, h7, h8⟩
  | readyLine => exact ⟨h1, h2, h3, h4, h5, h6, h7, h8⟩
  | daemonExit => exact ⟨h1, h2, h3, h4, h5, h6, h7, h8⟩
  | daemonSpawn => exact ⟨h1, h2, h3, h4, h5, h6, h7, h8⟩

/-- Helper: the link invariant holds along every trace from the initial
state. -/
theorem linkRun_inv (es : List LinkEvent) :
    ∀ s : ServoLink, LinkInv s → LinkInv (linkRun s es) := by
  induction es with
  | nil => exact fun s hs => hs
  | cons e rest ih => exact fun s hs => ih (linkStep s e) (linkStep_inv s e hs)

/-- Helper: the initial link state satisfies the invariant. -/
theorem linkInit_inv : LinkInv linkInit := by
  refine ⟨List.nodup_nil, ?_, List.nodup_nil, ?_, List.nodup_nil, ?_, ?_, ?_⟩ <;>
    intro x hx <;> simp [linkInit] at hx

/-- Helper: while busy and before the completion callback runs, a viewer
is completely inert: no broadcast touches it. -/
theorem viewerRun_busy_frozen (es : List ViewerEvent) :
    ∀ v : Viewer, v.busy = true → (∀ e ∈ es, e ≠ ViewerEvent.writeDone) →
    viewerRun v es = v := by
  induction es with
  | nil => exact fun v _ _ => rfl
  | cons e rest ih =>
    intro v hb hall
    have hstep : viewerStep v e = v := by
      cases e with
      | bcast f => simp [viewerStep, hb]
      | writeDone => exact absurd rfl (hall _ (List.mem_cons_self _ rest))
    calc viewerRun v (e :: rest)
        = viewerRun (viewerStep v e) rest := rfl
      _ = viewerRun v rest := by rw [hstep]
      _ = v := ih v hb (fun x hx => hall x (List.mem_cons_of_mem e hx))

/-- Helper: while the cooldown flag holds, any event other than the
cooldown timer callback and stop emits nothing and leaves the cooldown
flag set. -/
theorem fireStep_cooldown_frozen (s : FireState) (e : FireEvent)
    (hc : s.motionCooldown = true) (he : keepsCooldown e) :
    (fireStep s e).2 = [] ∧ (fireStep s e).1.motionCooldown = true := by
  cases e with
  | activeFrame cx cy => simp [fireStep, hc]
  | quietFrame =>
    simp only [fireStep]
    split <;> simp [hc]
  | settleFire =>
    simp only [fireStep]
    split
    · exact ⟨rfl, hc⟩
    · rw [if_pos (Or.inl hc)]
      exact ⟨rfl, hc⟩
  | cooldownFire => exact absurd rfl he.1
  | triggerDone => exact ⟨rfl, hc⟩
  | servoDone => exact ⟨rfl, hc⟩
  | stop => exact absurd rfl he.2

/-- Helper: during cooldown a cooldownFire/stop-free trace emits nothing
and the cooldown flag survives the whole trace. -/
theorem fireOutputs_cooldown_frozen (es : List FireEvent) :
    ∀ s : FireState, s.motionCooldown = true →
    (∀ e ∈ es, keepsCooldown e) →
    fireOutputs s es = [] ∧ (fireRun s es).motionCooldown = true := by
  induction es with
  | nil => exact fun s hc _ => ⟨rfl, hc⟩
  | cons e rest ih =>
    intro s hc hall
    have h1 := fireStep_cooldown_frozen s e hc (hall e (List.mem_cons_self e rest))
    have h2 := ih (fireStep s e).1 h1.2 (fun x hx => hall x (List.mem_cons_of_mem e hx))
    refine ⟨?_, h2.2⟩
    simp [fireOutputs, h1.1, h2.1]

/-- Helper: no step emits more than one trigger, a trigger is only
emitted by the settle timer callback from a non-cooldown state, and a
step that emits a trigger leaves the cooldown flag set. -/
theorem fireStep_trigger (s : FireState) (e : FireEvent) :
    ((fireStep s e).2.count FireOutput.trigger ≤ 1) ∧
    (FireOutput.trigger ∈ (fireStep s e).2 →
      (fireStep s e).1.motionCooldown = true ∧ s.motionCooldown = false ∧
      e = FireEvent.settleFire) := by
  cases e with
  | activeFrame cx cy =>
    simp only [fireStep]
    repeat' split
    all_goals
      refine ⟨?_, fun hmem => ?_⟩ <;>
        simp_all [List.count_eq_zero, List.mem_map]
  | quietFrame =>
    simp only [fireStep]
    split <;> simp
  | settleFire =>
    simp only [fireStep]
    split
    · simp
    · split
      · simp
      · rename_i harm hnot
        refine ⟨by simp, fun _ => ⟨rfl, ?_, by trivial⟩⟩
        rcases Bool.eq_false_or_eq_true s.motionCooldown with h | h
        · exact absurd (Or.inl h) hnot
        · exact h
  | cooldownFire =>
    simp only [fireStep]
    split <;> simp
  | triggerDone => simp [fireStep]
  | servoDone => simp [fireStep]
  | stop => simp [fireStep]

/-- Helper: a cooldownFire/stop-free trace emits at most one trigger. -/
theorem fireOutputs_one_trigger (es : List FireEvent) :
    ∀ s : FireState, (∀ e ∈ es, keepsCooldown e) →
    (fireOutputs s es).count FireOutput.trigger ≤ 1 := by
  induction es with
  | nil => intro s _; simp [fireOutputs]
  | cons e rest ih =>
    intro s hall
    have hstep := fireStep_trigger s e
    have hrest : ∀ x ∈ rest, keepsCooldown x :=
      fun x hx => hall x (List.mem_cons_of_mem e hx)
    simp only [fireOutputs, List.count_append]
    by_cases hmem : FireOutput.trigger ∈ (fireStep s e).2
    · have hcool := (hstep.2 hmem).1
      have hfroz := fireOutputs_cooldown_frozen rest (fireStep s e).1 hcool hrest
      rw [hfroz.1]
      simpa using hstep.1
    · rw [List.count_eq_zero.mpr hmem]
      simpa using ih (fireStep s e).1 hrest

/-- Helper: a detect step never changes the persisted servo position file. -/
theorem trackStep_detect_file (s : TrackState) (cx cy : ℚ) :
    (trackStep s (.detect cx cy)).1.fileH = s.fileH ∧
    (trackStep s (.detect cx cy)).1.fileV = s.fileV := by
  simp only [trackStep]
  repeat' split
  all_goals exact ⟨rfl, rfl⟩

end KockaKanon

namespace KockaKanon

/-- C7: offset -0.3 (cx = 0.2) on an axis at position 100 with gain 70 and
step limit 10 moves to exactly 110, while the unclamped target would be 121. -/
theorem c7_clamped_move_to_110 :
    trackNewPos 100 (-3/10) = 110 ∧
    100 + (-(-3/10) * TRACK_GAIN) = (121 : ℚ) ∧
    trackNewPos 100 (-3/10) ≠ 121 := by
  refine ⟨?_, ?_, ?_⟩ <;> norm_num [trackNewPos, trackDelta, jsRound,
    TRACK_GAIN, TRACK_MAX_STEP, SERVO_MIN, SERVO_MAX]

/-- C8 counterexample: the claim says an out-of-range persisted value yields
the rest/center position 135, but readServoState clamps: the value 300 is
read back as 270, not 135. -/
theorem c8_out_of_range_not_centered :
    ¬ (∀ v : ℚ, (v < SERVO_MIN ∨ SERVO_MAX < v) →
        readServoStateAxis (some v) = SERVO_CENTER) := by
  intro h
  have h300 := h 300 (by right; norm_num [SERVO_MAX])
  norm_num [readServoStateAxis, SERVO_MIN, SERVO_MAX, SERVO_CENTER] at h300

/-- C8 amended: a value outside [SERVO_MIN, SERVO_MAX] read from the servo
state file is clamped to the nearest range bound (not replaced by the
center), an in-range value is returned unchanged, and an unreadable or
non-numeric value yields the center position 135. -/
theorem c8_read_clamps_and_centers (v : ℚ) :
    (SERVO_MAX < v → readServoStateAxis (some v) = SERVO_MAX) ∧
    (v < SERVO_MIN → readServoStateAxis (some v) = SERVO_MIN) ∧
    (SERVO_MIN ≤ v → v ≤ SERVO_MAX → readServoStateAxis (some v) = v) ∧
    readServoStateAxis none = SERVO_CENTER := by
  refine ⟨fun hv => ?_, fun hv => ?_, fun h1 h2 => ?_, rfl⟩
  · rw [readServoStateAxis, min_eq_left hv.le, max_eq_right]
    norm_num [SERVO_MIN, SERVO_MAX]
  · rw [readServoStateAxis, max_eq_left ((min_le_right _ _).trans hv.le)]
  · rw [readServoStateAxis, min_eq_right h2, max_eq_right h1]

/-- C8 witness: the amended read behaviour at the concrete values 300
(clamped to 270), -5 (clamped to 0), 100 (unchanged) and an unreadable
file (center 135). -/
theorem c8_read_clamps_and_centers_witness :
    readServoStateAxis (some 300) = SERVO_MAX ∧
    readServoStateAxis (some (-5)) = SERVO_MIN ∧
    readServoStateAxis (some 100) = (100 : ℚ) ∧
    readServoStateAxis none = SERVO_CENTER :=
  ⟨(c8_read_clamps_and_centers 300).1 (by norm_num [SERVO_MAX]),
   (c8_read_clamps_and_centers (-5)).2.1 (by norm_num [SERVO_MIN]),
   (c8_read_clamps_and_centers 100).2.2.1 (by norm_num [SERVO_MIN])
     (by norm_num [SERVO_MAX]),
   (c8_read_clamps_and_centers 0).2.2.2⟩

/-- C5: over the attach/detach/attach scenario (viewer count 0 to 1 to 0 to
1 with the re-attach before the idle timer fires) the producer is started
exactly once and never stopped; the detach genuinely armed the idle timer,
the re-attach cancelled it so a later timer event is a no-op; and in any
state the idle timer leaves the producer running when the count is
nonzero at fire time. -/
theorem c5_reattach_within_grace (t : CamState)
    (ht : 0 < t.uiStreamClients) :
    (camExec camInit [.uiAttach, .uiDetach]).cameraIdleTimer = true ∧
    (camExec camInit [.uiAttach, .uiDetach, .uiAttach]).starts = 1 ∧
    (camExec camInit [.uiAttach, .uiDetach, .uiAttach]).stops = 0 ∧
    (camExec camInit [.uiAttach, .uiDetach, .uiAttach]).cameraRunning = true ∧
    (camExec camInit [.uiAttach, .uiDetach, .uiAttach]).cameraIdleTimer = false ∧
    camStep (camExec camInit [.uiAttach, .uiDetach, .uiAttach]) .idleFire =
      camExec camInit [.uiAttach, .uiDetach, .uiAttach] ∧
    (camStep t .idleFire).stops = t.stops ∧
    (camStep t .idleFire).cameraRunning = t.cameraRunning := by
  refine ⟨by decide, by decide, by decide, by decide, by decide, by decide, ?_, ?_⟩ <;>
  · simp only [camStep]
    split
    · rw [if_neg]
      rintro ⟨h0, -⟩
      omega
    · rfl

/-- C5 witness: the scenario facts together with the nonzero-count
idle-fire no-op at a concrete state with one connected UI client. -/
theorem c5_reattach_within_grace_witness :
    (camStep (camExec camInit [.uiAttach]) .idleFire).stops =
      (camExec camInit [.uiAttach]).stops ∧
    (camExec camInit [.uiAttach, .uiDetach, .uiAttach]).starts = 1 ∧
    (camExec camInit [.uiAttach, .uiDetach, .uiAttach]).stops = 0 :=
  ⟨(c5_reattach_within_grace (camExec camInit [.uiAttach]) (by decide)).2.2.2.2.2.2.1,
   (c5_reattach_within_grace (camExec camInit [.uiAttach]) (by decide)).2.1,
   (c5_reattach_within_grace (camExec camInit [.uiAttach]) (by decide)).2.2.1⟩

/-- C9 counterexample: the claim says the producer exit handler resets the
UI viewer reference count to zero, but with one UI client attached the
count is still 1 after the exit handler runs. -/
theorem c9_exit_does_not_reset_ui_count :
    ¬ (∀ s : CamState, (camStep s .producerExit).uiStreamClients = 0) := by
  intro h
  exact absurd (h (camExec camInit [.uiAttach])) (by decide)

/-- C9 amended: the producer exit handler clears the live viewer set,
drops the cached frame and nulls the process handle, but leaves the UI
viewer reference count (and the idle timer) unchanged; the count only
changes through client attach/disconnect. -/
theorem c9_exit_clears_viewers_keeps_count (s : CamState) :
    (camStep s .producerExit).cameraClients = 0 ∧
    (camStep s .producerExit).latestFrame = none ∧
    (camStep s .producerExit).cameraRunning = false ∧
    (camStep s .producerExit).uiStreamClients = s.uiStreamClients ∧
    (camStep s .producerExit).cameraIdleTimer = s.cameraIdleTimer :=
  ⟨rfl, rfl, rfl, rfl, rfl⟩

/-- C3: the persisted servo position file changes only on acknowledgment
of the issued commands (no other event touches it), only when SEEK is
still enabled at acknowledgment time (a disable mid-flight or a command
failure leaves it unchanged), and a detection event arriving while a
previous move is in flight is skipped entirely: state unchanged, no
commands issued. -/
theorem c3_persist_only_after_ack (s : TrackState) (cx cy : ℚ) :
    (s.motionTrackerMoveInFlight = true → trackStep s (.detect cx cy) = (s, [])) ∧
    (∀ e : TrackEvent, e ≠ .ackOk →
      (trackStep s e).1.fileH = s.fileH ∧ (trackStep s e).1.fileV = s.fileV) ∧
    (s.servoTrackingEnabled = false →
      (trackStep s .ackOk).1.fileH = s.fileH ∧
      (trackStep s .ackOk).1.fileV = s.fileV) ∧
    (∀ th tv : ℚ, s.servoTrackingEnabled = true → s.pendingMove = some (th, tv) →
      (trackStep s .ackOk).1.fileH = th ∧ (trackStep s .ackOk).1.fileV = tv) := by
  refine ⟨fun hf => ?_, fun e he => ?_, fun hen => ?_, fun th tv hen hp => ?_⟩
  · simp only [trackStep]
    split
    · rfl
    · simp [hf]
  · cases e with
    | detect cx cy => exact trackStep_detect_file s cx cy
    | ackOk => exact absurd rfl he
    | ackFail => exact ⟨rfl, rfl⟩
    | seekEnable => exact ⟨rfl, rfl⟩
    | seekDisable => exact ⟨rfl, rfl⟩
  · simp only [trackStep]
    cases hpm : s.pendingMove with
    | none => exact ⟨rfl, rfl⟩
    | some p =>
      cases p with
      | mk th tv => simp [hen]
  · simp only [trackStep, hp]
    simp [hen]

/-- C3 witness: with a move in flight a detection at centroid (0.2, 0.5)
is skipped; an acknowledgment arriving after SEEK was disabled leaves the
file at 135; an acknowledgment with SEEK still on persists the pending
target 110. -/
theorem c3_persist_only_after_ack_witness :
    trackStep ⟨true, true, true, 135, 135, none⟩ (.detect (1/5) (1/2)) =
      (⟨true, true, true, 135, 135, none⟩, []) ∧
    (trackStep ⟨true, false, false, 135, 135, some (110, 135)⟩ .ackOk).1.fileH = 135 ∧
    (trackStep ⟨true, true, true, 135, 135, some (110, 135)⟩ .ackOk).1.fileH = 110 :=
  ⟨(c3_persist_only_after_ack ⟨true, true, true, 135, 135, none⟩ (1/5) (1/2)).1 rfl,
   ((c3_persist_only_after_ack ⟨true, false, false, 135, 135, some (110, 135)⟩ 0 0).2.2.1 rfl).1,
   ((c3_persist_only_after_ack ⟨true, true, true, 135, 135, some (110, 135)⟩ 0 0).2.2.2 110 135 rfl rfl).1⟩

/-- C4: while the cooldown flag holds (between the trigger firing and the
cooldown timer elapsing), every detection event is skipped — no servo
moves and no trigger are emitted over any cooldownFire/stop-free trace,
and the cooldown flag survives; any such trace emits at most one trigger
in total; and a trigger is only ever emitted by the settle-timer callback
from a non-cooldown state, with the cooldown flag already set in the
resulting state. -/
theorem c4_cooldown_blocks_second_bout (s : FireState) (es : List FireEvent)
    (e : FireEvent) :
    (s.motionCooldown = true → (∀ x ∈ es, keepsCooldown x) →
      fireOutputs s es = [] ∧ (fireRun s es).motionCooldown = true) ∧
    ((∀ x ∈ es, keepsCooldown x) →
      (fireOutputs s es).count FireOutput.trigger ≤ 1) ∧
    (FireOutput.trigger ∈ (fireStep s e).2 →
      (fireStep s e).1.motionCooldown = true ∧ s.motionCooldown = false ∧
      e = FireEvent.settleFire) :=
  ⟨fun hc hall => fireOutputs_cooldown_frozen es s hc hall,
   fun hall => fireOutputs_one_trigger es s hall,
   (fireStep_trigger s e).2⟩

/-- C4 witness: from an in-cooldown state, two active frames and a quiet
frame emit nothing and leave the cooldown set; the settle callback from an
armed non-cooldown state emits the trigger with cooldown set in the
post-state. -/
theorem c4_cooldown_blocks_second_bout_witness :
    (fireOutputs ⟨true, true, true, false, false, true, 135, 135⟩
        [.activeFrame (1/5) (1/2), .quietFrame, .activeFrame (3/4) (1/4)] = [] ∧
      (fireRun ⟨true, true, true, false, false, true, 135, 135⟩
        [.activeFrame (1/5) (1/2), .quietFrame, .activeFrame (3/4) (1/4)]).motionCooldown = true) ∧
    (fireStep ⟨true, false, true, false, true, false, 135, 135⟩
        FireEvent.settleFire).1.motionCooldown = true :=
  ⟨(c4_cooldown_blocks_second_bout ⟨true, true, true, false, false, true, 135, 135⟩
      [.activeFrame (1/5) (1/2), .quietFrame, .activeFrame (3/4) (1/4)]
      FireEvent.settleFire).1 rfl (by decide),
   ((c4_cooldown_blocks_second_bout ⟨true, false, true, false, true, false, 135, 135⟩
      [] FireEvent.settleFire).2.2 (by decide)).1⟩

/-- C2: for every byte stream and every way of splitting it into chunks,
feeding the chunks to broadcastFrame one at a time (starting from an
empty frameBuffer) emits exactly the same sequence of frames, and leaves
the same residual buffer, as feeding the whole stream as one chunk; in
particular markers split across chunk boundaries change nothing. -/
theorem c2_chunk_boundary_independence (chunks : List (List ℕ)) :
    ingestAll [] chunks = extractFrames chunks.flatten ∧
    ingestAll [] [chunks.flatten] = extractFrames chunks.flatten := by
  constructor
  · simpa using ingestAll_spec chunks [] rfl
  · simpa using ingestAll_spec [chunks.flatten] [] rfl

/-- C1: along every interleaving of calls, response lines, timeouts and
daemon lifecycle events, the pending-callback map holds at most one entry
per sequence id, sequence ids handed to callers are never reused, every
caller is settled at most once and only by the response line tagged with
its own sequence id or by its own timeout, and once no callback is
pending every issued id has been settled exactly once. -/
theorem c1_sequence_id_correlation (es : List LinkEvent) :
    ((linkRun linkInit es).servoCallbacks.map Prod.fst).Nodup ∧
    (linkRun linkInit es).issued.Nodup ∧
    ((linkRun linkInit es).settled.map Prod.fst).Nodup ∧
    (∀ q ∈ (linkRun linkInit es).settled,
      q.2 = Settle.response q.1 ∨ q.2 = Settle.timeout q.1) ∧
    ((linkRun linkInit es).servoCallbacks = [] →
      ∀ i ∈ (linkRun linkInit es).issued,
        ((linkRun linkInit es).settled.map Prod.fst).count i = 1) := by
  obtain ⟨h1, h2, h3, h4, h5, h6, h7, h8⟩ := linkRun_inv es linkInit linkInit_inv
  refine ⟨h1, h3, h5, fun q hq => (h6 q hq).1, fun hemp i hi => ?_⟩
  rcases h7 i hi with hk | hs
  · rw [hemp] at hk
    simp at hk
  · exact List.count_eq_one_of_mem h5 hs

/-- C1 witness: two concurrent calls, the first answered by its own
response line and the second by its own timeout: both callers are settled
exactly once, by their own ids, and the callback map ends empty. -/
theorem c1_sequence_id_correlation_witness :
    ((linkRun linkInit
        [.readyLine, .call, .call, .response 1, .timeoutFire 2]).settled.map
          Prod.fst).count 1 = 1 ∧
    ((linkRun linkInit
        [.readyLine, .call, .call, .response 1, .timeoutFire 2]).settled.map
          Prod.fst).count 2 = 1 ∧
    (linkRun linkInit
        [.readyLine, .call, .call, .response 1, .timeoutFire 2]).settled =
      [(1, Settle.response 1), (2, Settle.timeout 2)] :=
  ⟨(c1_sequence_id_correlation
      [.readyLine, .call, .call, .response 1, .timeoutFire 2]).2.2.2.2
      (by decide) 1 (by decide),
   (c1_sequence_id_correlation
      [.readyLine, .call, .call, .response 1, .timeoutFire 2]).2.2.2.2
      (by decide) 2 (by decide),
   by decide⟩

/-- C10: a servoCmd call made while the link is not ready or the daemon
handle is null rejects immediately with the not-ready error and has no
other effect: the state is unchanged, so no sequence id is consumed, no
callback entry is added, no timeout is armed and nothing is written to
the daemon's stdin. -/
theorem c10_not_ready_rejects_cleanly (s : ServoLink)
    (h : s.servoReady = false ∨ s.daemonUp = false) :
    servoCmdStep s = (s, CallResult.rejectedNotReady) ∧
    (servoCmdStep s).1.servoSeq = s.servoSeq ∧
    (servoCmdStep s).1.servoCallbacks = s.servoCallbacks ∧
    (servoCmdStep s).1.stdinWrites = s.stdinWrites := by
  have heq : servoCmdStep s = (s, CallResult.rejectedNotReady) := by
    simp only [servoCmdStep]
    rw [if_pos h]
  exact ⟨heq, by rw [heq], by rw [heq], by rw [heq]⟩

/-- C10 witness: at process start (daemon spawned, READY not yet seen) a
call is rejected with the not-ready error and the state is unchanged. -/
theorem c10_not_ready_rejects_cleanly_witness :
    servoCmdStep linkInit = (linkInit, CallResult.rejectedNotReady) :=
  (c10_not_ready_rejects_cleanly linkInit (Or.inl rfl)).1

/-- C6: a viewer whose busy flag is set at broadcast time receives no
write for that frame and nothing is queued (its state is untouched); a
write burst is only issued to a viewer whose flag is clear, and it sets
the flag together with the header/body/separator writes; the flag is
cleared only by the completion event of the final write; hence between a
burst and its completion the viewer receives no further writes (no
overlapping frame writes). -/
theorem c6_busy_viewer_never_written (v : Viewer) (f : List ℕ)
    (es : List ViewerEvent) :
    (v.busy = true → viewerStep v (.bcast f) = v) ∧
    (v.busy = false → viewerStep v (.bcast f) =
      { busy := true,
        writes := v.writes ++ [WriteItem.header f.length, WriteItem.body f, WriteItem.sep] }) ∧
    (∀ e : ViewerEvent, v.busy = true → (viewerStep v e).busy = false →
      e = ViewerEvent.writeDone) ∧
    (v.busy = true → (∀ e ∈ es, e ≠ ViewerEvent.writeDone) →
      viewerRun v es = v) := by
  refine ⟨fun hb => ?_, fun hb => ?_, fun e hb hc => ?_, fun hb hall =>
    viewerRun_busy_frozen es v hb hall⟩
  · simp [viewerStep, hb]
  · simp [viewerStep, hb]
  · cases e with
    | bcast g =>
      simp only [viewerStep, hb, if_true] at hc
      exact absurd hc (by decide)
    | writeDone => rfl

/-- C6 witness: a busy viewer hit by a broadcast of frame [1,2] stays
unchanged, and over a broadcast-only trace it receives no writes at all;
an idle viewer gets exactly the marked burst. -/
theorem c6_busy_viewer_never_written_witness :
    viewerStep ⟨true, []⟩ (.bcast [1, 2]) = ⟨true, []⟩ ∧
    viewerRun ⟨true, []⟩ [.bcast [1, 2], .bcast [3]] = ⟨true, []⟩ ∧
    viewerStep ⟨false, []⟩ (.bcast [1, 2]) =
      ⟨true, [WriteItem.header 2, WriteItem.body [1, 2], WriteItem.sep]⟩ :=
  ⟨(c6_busy_viewer_never_written ⟨true, []⟩ [1, 2] []).1 rfl,
   (c6_busy_viewer_never_written ⟨true, []⟩ [1, 2]
      [.bcast [1, 2], .bcast [3]]).2.2.2 rfl (by decide),
   (c6_busy_viewer_never_written ⟨false, []⟩ [1, 2] []).2.1 rfl⟩

end KockaKanon
